import Mathlib

/-!
Verification of the core behaviours of the `signal_automation` repository.

Shallow embedding conventions:

* Timestamps are rationals measured in days (budget bot) or minutes
  (bin bot); Python `datetime` values stored via `strftime("%Y-%m-%d")`
  are whole days, so persisted dates are `ℤ`.
* Python monetary floats are modelled as `ℚ`; the claims under check are
  about the additive bookkeeping, not float rounding.
* JSON persistence is modelled by an `Option String` file content
  (`none` = missing file) plus a parse oracle `String → Option v`
  (`none` = malformed content); external fetches are oracles passed as
  function arguments.
* Fallible Python operations (e.g. `float(..)`) are oracles returning
  `Except String v` whose `error` carries the exception message.
-/

namespace SignalAutomation

/-! ## Python string primitives

Modelled over `String.data` (lists of characters) so that every theorem
can be evaluated on concrete inputs by the kernel. -/

/-- Does the second list start with the first one? -/
def startsWithChars : List Char → List Char → Bool
  | [], _ => true
  | _ :: _, [] => false
  | p :: ps, c :: cs => p = c && startsWithChars ps cs

/-- Python `str.startswith(pat)`. -/
def pyStartsWith (s pat : String) : Bool :=
  startsWithChars pat.data s.data

/-- Python `str.strip()`: remove leading and trailing whitespace. -/
def pyStrip (s : String) : String :=
  String.mk (((s.data.dropWhile Char.isWhitespace).reverse.dropWhile
    Char.isWhitespace).reverse)

/-- Python `str.lower()`. -/
def pyLower (s : String) : String :=
  String.mk (s.data.map Char.toLower)

/-- Helper for `pySplit`: split a character list on whitespace runs,
dropping empty fields (Python `str.split()` with no separator). -/
def splitWs (cur : List Char) : List Char → List (List Char)
  | [] => if cur = [] then [] else [cur.reverse]
  | c :: cs =>
    if c.isWhitespace then
      if cur = [] then splitWs [] cs else cur.reverse :: splitWs [] cs
    else splitWs (c :: cur) cs

/-- Python `str.split()` (no separator argument). -/
def pySplit (s : String) : List String :=
  (splitWs [] s.data).map String.mk

/-! ## Budget bot (`src/budget_bot.py`) -/

/-- One entry of `state["history"]` as appended by
`BudgetBot.add_transaction` (src/budget_bot.py lines 77-81). -/
structure HistEntry where
  date : String
  amount : ℚ
  comment : String
deriving DecidableEq, Repr

/-- The persisted budget state (src/budget_bot.py lines 19-24).
`last_weekly_update` is persisted with `strftime("%Y-%m-%d")`, hence a
whole day number. -/
structure BudgetState where
  balance : ℚ
  weekly_amount : ℚ
  last_weekly_update : ℤ
  history : List HistEntry
deriving DecidableEq, Repr

/-- Python `lst[-10:]`: the last ten elements. -/
def lastTen (l : List HistEntry) : List HistEntry :=
  l.drop (l.length - 10)

/-- `BudgetBot.add_transaction(amount, comment)` (src/budget_bot.py
lines 75-84): add to the balance, append a history entry (comment
defaulting to "Manual Entry" when empty, mirroring Python truthiness),
keep only the last ten entries.  `nowStr` stands for
`datetime.now().strftime(..)`. -/
def add_transaction (s : BudgetState) (amount : ℚ) (comment : String)
    (nowStr : String) : BudgetState :=
  { s with
    balance := s.balance + amount
    history := lastTen (s.history ++
      [{ date := nowStr, amount := amount,
         comment := if comment = "" then "Manual Entry" else comment }]) }

/-- One evaluation of the catch-up logic of `BudgetBot.weekly_task`
(src/budget_bot.py lines 33-59).  `now` is in days; `days_passed` is
`timedelta.days` (floor), `weeks` is Python `//` (floor division). -/
def weeklyEval (now : ℚ) (nowStr : String) (s : BudgetState) : BudgetState :=
  if (s.last_weekly_update : ℚ) + 7 ≤ now then
    let days_passed : ℤ := ⌊now - (s.last_weekly_update : ℚ)⌋
    let weeks : ℤ := Int.fdiv days_passed 7
    if 0 < weeks then
      let total : ℚ := (weeks : ℚ) * s.weekly_amount
      let s1 := add_transaction s total
        ("Auto-allowance (" ++ toString weeks ++ " wks)") nowStr
      { s1 with last_weekly_update := s.last_weekly_update + 7 * weeks }
    else s
  else s

/-- The sleep chosen at the end of a `weekly_task` iteration
(src/budget_bot.py lines 61-69): `next_update - now` converted to
seconds; if non-positive, a fixed 3600-second fallback sleep.
Arguments are in days, the result in seconds. -/
def weeklySleepSeconds (next_update now : ℚ) : ℚ :=
  let wait_seconds := (next_update - now) * 86400
  if 0 < wait_seconds then wait_seconds else 3600

end SignalAutomation

namespace SignalAutomation

/-! Theorems about the budget scheduler. -/

theorem lastTen_length_le (l : List HistEntry) : (lastTen l).length ≤ 10 := by
  simp only [lastTen, List.length_drop]
  omega

theorem lastTen_getLast? (l : List HistEntry) (e : HistEntry) :
    (lastTen (l ++ [e])).getLast? = some e := by
  simp only [lastTen]
  rw [List.getLast?_drop, if_neg (by simp; omega)]
  simp

/-- C10 helper: the freshly appended entry. -/
def newEntry (amount : ℚ) (comment nowStr : String) : HistEntry :=
  { date := nowStr, amount := amount,
    comment := if comment = "" then "Manual Entry" else comment }

/-- **C10** — after every `add_transaction(amount, comment)`, the balance
increases by exactly `amount`, the history holds at most 10 entries, and
the newly appended entry is the last element of the retained history. -/
theorem c10_add_transaction (s : BudgetState) (amount : ℚ)
    (comment nowStr : String) :
    (add_transaction s amount comment nowStr).balance = s.balance + amount ∧
    (add_transaction s amount comment nowStr).history.length ≤ 10 ∧
    (add_transaction s amount comment nowStr).history.getLast? =
      some (newEntry amount comment nowStr) := by
  refine ⟨rfl, lastTen_length_le _, ?_⟩
  exact lastTen_getLast? s.history (newEntry amount comment nowStr)

/-- Arithmetic helper: floor division by 7 of an integer in `[21, 28)`. -/
theorem fdiv_seven_eq_three (d : ℤ) (ha : 21 ≤ d) (hb : d < 28) :
    Int.fdiv d 7 = 3 := by
  interval_cases d <;> decide

/-- Evaluation lemma for `weeklyEval` in the catch-up branch. -/
theorem weeklyEval_spec (now : ℚ) (d : String) (s : BudgetState) (w : ℤ)
    (hcond : (s.last_weekly_update : ℚ) + 7 ≤ now)
    (hw : Int.fdiv ⌊now - (s.last_weekly_update : ℚ)⌋ 7 = w)
    (hpos : 0 < w) :
    (weeklyEval now d s).balance = s.balance + (w : ℚ) * s.weekly_amount ∧
    (weeklyEval now d s).last_weekly_update = s.last_weekly_update + 7 * w ∧
    (weeklyEval now d s).weekly_amount = s.weekly_amount := by
  rw [weeklyEval, if_pos hcond]
  dsimp only
  rw [hw, if_pos hpos]
  exact ⟨rfl, rfl, rfl⟩

/-- Evaluation lemma for `weeklyEval` before the next update is due. -/
theorem weeklyEval_noop (now : ℚ) (d : String) (s : BudgetState)
    (h : ¬ ((s.last_weekly_update : ℚ) + 7 ≤ now)) :
    weeklyEval now d s = s := by
  rw [weeklyEval, if_neg h]

/-- **C1** — with `last_fired_at = T0` and period 7 days, one evaluation at
`now = T0 + 21 + ε` (`0 ≤ ε < 7`) adds exactly `3 × weekly_amount` to the
balance and advances `last_weekly_update` to `T0 + 21`; a second
evaluation at the same `now` changes nothing; and after each evaluation
`last_weekly_update` is non-decreasing and at most `now`. -/
theorem c1_weekly_catchup (T0 : ℤ) (bal amt : ℚ) (hist : List HistEntry)
    (ε : ℚ) (d1 d2 : String) (h0 : 0 ≤ ε) (h1 : ε < 7) :
    (weeklyEval ((T0 : ℚ) + 21 + ε) d1 ⟨bal, amt, T0, hist⟩).balance = bal + 3 * amt ∧
    (weeklyEval ((T0 : ℚ) + 21 + ε) d1 ⟨bal, amt, T0, hist⟩).last_weekly_update = T0 + 21 ∧
    weeklyEval ((T0 : ℚ) + 21 + ε) d2 (weeklyEval ((T0 : ℚ) + 21 + ε) d1 ⟨bal, amt, T0, hist⟩) =
      weeklyEval ((T0 : ℚ) + 21 + ε) d1 ⟨bal, amt, T0, hist⟩ ∧
    T0 ≤ (weeklyEval ((T0 : ℚ) + 21 + ε) d1 ⟨bal, amt, T0, hist⟩).last_weekly_update ∧
    ((weeklyEval ((T0 : ℚ) + 21 + ε) d1 ⟨bal, amt, T0, hist⟩).last_weekly_update : ℚ) ≤
      (T0 : ℚ) + 21 + ε := by
  have hcond : (((⟨bal, amt, T0, hist⟩ : BudgetState).last_weekly_update : ℚ)) + 7 ≤
      (T0 : ℚ) + 21 + ε := by
    dsimp only; linarith
  have harg : ((T0 : ℚ) + 21 + ε) - ((T0 : ℤ) : ℚ) = 21 + ε := by ring
  have ha : (21 : ℤ) ≤ ⌊(21 : ℚ) + ε⌋ := Int.le_floor.mpr (by push_cast; linarith)
  have hb : ⌊(21 : ℚ) + ε⌋ < 28 := Int.floor_lt.mpr (by push_cast; linarith)
  have hw : Int.fdiv ⌊((T0 : ℚ) + 21 + ε) -
      (((⟨bal, amt, T0, hist⟩ : BudgetState).last_weekly_update : ℤ) : ℚ)⌋ 7 = 3 := by
    dsimp only
    rw [harg]
    exact fdiv_seven_eq_three _ ha hb
  obtain ⟨hbal, hlast, hamt⟩ :=
    weeklyEval_spec ((T0 : ℚ) + 21 + ε) d1 ⟨bal, amt, T0, hist⟩ 3 hcond hw (by norm_num)
  have hlast' : (weeklyEval ((T0 : ℚ) + 21 + ε) d1 ⟨bal, amt, T0, hist⟩).last_weekly_update =
      T0 + 21 := by rw [hlast]; dsimp only; omega
  refine ⟨?_, hlast', ?_, ?_, ?_⟩
  · rw [hbal]; push_cast; ring
  · refine weeklyEval_noop _ d2 _ ?_
    rw [hlast']
    push_cast
    linarith
  · rw [hlast']; omega
  · rw [hlast']; push_cast; linarith

/-- Witness for C1 at `T0 = 0`, `bal = 0`, `amt = 1`, `ε = 1/2`. -/
theorem c1_weekly_catchup_witness :
    (weeklyEval (((0 : ℤ) : ℚ) + 21 + 1/2) "x" ⟨0, 1, 0, []⟩).balance = 0 + 3 * 1 ∧
    (weeklyEval (((0 : ℤ) : ℚ) + 21 + 1/2) "x" ⟨0, 1, 0, []⟩).last_weekly_update = 0 + 21 ∧
    weeklyEval (((0 : ℤ) : ℚ) + 21 + 1/2) "y"
        (weeklyEval (((0 : ℤ) : ℚ) + 21 + 1/2) "x" ⟨0, 1, 0, []⟩) =
      weeklyEval (((0 : ℤ) : ℚ) + 21 + 1/2) "x" ⟨0, 1, 0, []⟩ ∧
    (0 : ℤ) ≤ (weeklyEval (((0 : ℤ) : ℚ) + 21 + 1/2) "x" ⟨0, 1, 0, []⟩).last_weekly_update ∧
    (((weeklyEval (((0 : ℤ) : ℚ) + 21 + 1/2) "x" ⟨0, 1, 0, []⟩).last_weekly_update : ℤ) : ℚ) ≤
      ((0 : ℤ) : ℚ) + 21 + 1/2 :=
  c1_weekly_catchup 0 0 1 [] (1/2) "x" "y" (by norm_num) (by norm_num)

/-- **C9, counterexample** — the claim says a zero-or-negative computed
wait is treated as "fire immediately" with no additional delay; but at
`next_update = now` the code sleeps the 3600-second safety fallback
instead of proceeding at once. -/
theorem c9_counterexample :
    weeklySleepSeconds 0 0 = 3600 ∧ (3600 : ℚ) ≠ 0 := by
  constructor
  · norm_num [weeklySleepSeconds]
  · norm_num

/-- **C9, amended** — whenever the computed duration until the next
scheduled update is zero or negative, the scheduler sleeps the fixed
3600-second fallback before re-evaluating (src/budget_bot.py lines
64-69), rather than proceeding immediately. -/
theorem c9_nonpositive_wait_sleeps_fallback (next_update now : ℚ)
    (h : next_update - now ≤ 0) :
    weeklySleepSeconds next_update now = 3600 := by
  have hneg : ¬ (0 < (next_update - now) * 86400) := by
    intro hpos
    nlinarith
  simp only [weeklySleepSeconds]
  rw [if_neg hneg]

/-- Witness for the amended C9 at `next_update = 0`, `now = 1`. -/
theorem c9_nonpositive_wait_sleeps_fallback_witness :
    ((0 : ℚ) - 1 ≤ 0) ∧ weeklySleepSeconds 0 1 = 3600 :=
  ⟨by norm_num, c9_nonpositive_wait_sleeps_fallback 0 1 (by norm_num)⟩

/-! ## Persistent state loads (C7)

A file system read is an `Option String` (`none` = missing file) and
JSON decoding is a parse oracle `String → Option v` (`none` = malformed
content).  Each load below mirrors the `try`/`except` structure of its
Python source; a load that can propagate an exception returns `Except`. -/

/-- The default state built by `BudgetBot.load_state` (src/budget_bot.py
lines 19-24); `today` stands for `datetime.now().strftime("%Y-%m-%d")`. -/
def budgetDefaultState (today : ℤ) : BudgetState :=
  { balance := 0, weekly_amount := 1, last_weekly_update := today, history := [] }

/-- `BudgetBot.load_state` (src/budget_bot.py lines 14-24): any
`OSError`/`ValueError` (missing file, malformed JSON) yields the default. -/
def load_state (file : Option String) (parse : String → Option BudgetState)
    (today : ℤ) : BudgetState :=
  match file with
  | none => budgetDefaultState today
  | some s => (parse s).getD (budgetDefaultState today)

/-- `TrainBot.load_stations` (src/train_bot.py lines 25-32): existence
check plus a bare `except`, default shortcuts otherwise. -/
def load_stations (file : Option String)
    (parse : String → Option (List (String × String))) : List (String × String) :=
  match file with
  | none => [("home", "NEM"), ("work", "WAT")]
  | some s => (parse s).getD [("home", "NEM"), ("work", "WAT")]

/-- One scraped bin collection entry (src/bin_bot.py line 68). -/
structure BinCollection where
  type : String
  date : String
deriving DecidableEq, Repr

/-- `BinBot.load_cache` (src/bin_bot.py lines 24-29): catches
`FileNotFoundError` and `json.JSONDecodeError`, returning `None`. -/
def load_cache (file : Option String)
    (parse : String → Option (List BinCollection)) : Option (List BinCollection) :=
  match file with
  | none => none
  | some s => parse s

/-- `NestBot.load_state` (src/nest_bot.py lines 30-41): missing file,
empty content or a `JSONDecodeError`/`IOError` all yield `{}`. -/
def nest_load_state (file : Option String)
    (parse : String → Option (List (String × String))) : List (String × String) :=
  match file with
  | none => []
  | some s => if pyStrip s = "" then [] else (parse s).getD []

/-- A stored reminder (src/bots/reminder_bot.py lines 71-74). -/
structure Reminder where
  time : String
  task : String
deriving DecidableEq, Repr

/-- `ReminderBot.load_reminders` of src/bots/reminder_bot.py lines 13-19:
existence check plus a bare `except`, default `[]`. -/
def load_reminders (file : Option String)
    (parse : String → Option (List Reminder)) : List Reminder :=
  match file with
  | none => []
  | some s => (parse s).getD []

/-- `ReminderBot.load_reminders` of `src/bots/import os.py` lines 13-17:
the existence check handles a missing file, but `json.load` runs with no
`try`/`except`, so malformed content propagates the decode exception to
the caller. -/
def load_reminders_unguarded (file : Option String)
    (parse : String → Option (List Reminder)) : Except String (List Reminder) :=
  match file with
  | none => Except.ok []
  | some s =>
    match parse s with
    | some v => Except.ok v
    | none => Except.error "json.decoder.JSONDecodeError"

/-- **C7** — evaluation at the failing input: with malformed stored
content (a parse oracle rejecting the text "\x7b"), the budget, station,
bin-cache, nest and current reminder loads all return their documented
defaults without raising, but the `src/bots/import os.py` reminder load
propagates the JSON decode exception to its caller, contradicting the
claim that no load ever raises. -/
theorem c7_load_defaults_and_reminder_bug :
    load_state (some "\x7b") (fun _ => none) 0 = budgetDefaultState 0 ∧
    load_stations (some "\x7b") (fun _ => none) = [("home", "NEM"), ("work", "WAT")] ∧
    load_cache (some "\x7b") (fun _ => none) = none ∧
    nest_load_state (some "\x7b") (fun _ => none) = [] ∧
    load_reminders (some "\x7b") (fun _ => none) = [] ∧
    load_reminders_unguarded (some "\x7b") (fun _ => none) =
      Except.error "json.decoder.JSONDecodeError" := by
  refine ⟨rfl, rfl, rfl, ?_, rfl, rfl⟩
  rfl

/-! ## Command router (C6, `src/master_bot.py` lines 57-114)

The routing identifiers come from `os.getenv`, hence `Option String`;
the inbound `internal_id` (group id or source) is likewise optional.
A reply is only ever sent from inside a matched handler branch, so a
`none` route means no handler invocation and no reply. -/

/-- The five `*_INTERNAL_ID` environment values read by the routing
chain (src/master_bot.py lines 89-114). -/
structure RoutingEnv where
  budgetId : Option String
  trainId : Option String
  binId : Option String
  testingId : Option String
  nestId : Option String
deriving DecidableEq, Repr

/-- The handlers bound in the `if`/`elif` routing chain.  The
`TESTING_INTERNAL_ID` branch is commented out in the source, so no
handler is bound to it. -/
inductive BotHandler where
  | budget
  | train
  | bin
  | nest
deriving DecidableEq, Repr

/-- The routing decision of `master_listener` (src/master_bot.py lines
85-114): drop messages not starting with "/", then the `if`/`elif`
chain on the internal id; the final `else` logs and drops. -/
def master_route (env : RoutingEnv) (internal_id : Option String)
    (text : String) : Option BotHandler :=
  if ¬ (pyStartsWith text "/") then none
  else if internal_id = env.budgetId then some BotHandler.budget
  else if internal_id = env.trainId then some BotHandler.train
  else if internal_id = env.binId then some BotHandler.bin
  else if internal_id = env.nestId then some BotHandler.nest
  else none

/-- **C6** — with all handler-bound routing keys configured and pairwise
distinct, a command whose routing key equals a configured key reaches
exactly the handler bound to that key and no other; a routing key
matching none of the handler-bound keys invokes no handler (so no reply
is sent, replies being emitted only inside handler branches). -/
theorem c6_router_isolation (env : RoutingEnv) (kb kt kc kn : String)
    (text : String)
    (hb : env.budgetId = some kb) (ht : env.trainId = some kt)
    (hc : env.binId = some kc) (hn : env.nestId = some kn)
    (htb : kt ≠ kb) (hcb : kc ≠ kb) (hct : kc ≠ kt)
    (hnb : kn ≠ kb) (hnt : kn ≠ kt) (hnc : kn ≠ kc)
    (hslash : pyStartsWith text "/" = true) :
    master_route env (some kb) text = some BotHandler.budget ∧
    master_route env (some kt) text = some BotHandler.train ∧
    master_route env (some kc) text = some BotHandler.bin ∧
    master_route env (some kn) text = some BotHandler.nest ∧
    ∀ id : Option String, id ≠ some kb → id ≠ some kt → id ≠ some kc →
      id ≠ some kn → master_route env id text = none := by
  refine ⟨?_, ?_, ?_, ?_, ?_⟩
  · simp [master_route, hb, hslash]
  · simp [master_route, hb, ht, hslash, htb]
  · simp [master_route, hb, ht, hc, hslash, hcb, hct]
  · simp [master_route, hb, ht, hc, hn, hslash, hnb, hnt, hnc]
  · intro id h1 h2 h3 h4
    simp only [master_route, hb, ht, hc, hn, hslash]
    simp [h1, h2, h3, h4]

/-! ## Budget command handler (C8, `src/budget_bot.py` lines 86-134)

`pf` is the `float(..)` conversion oracle (`error` carries the Python
exception message); `fmt` models the `:.2f` format glue.  The whole
handler body runs under `try`/`except Exception`; the `/add` family has
an inner `try` catching `ValueError`, the `/set` branch does not. -/

/-- The usage text returned for `/usage` and `/help`. -/
def budgetUsageText : String :=
  "📖 *Budget Bot Usage*\n" ++
  "• /balance - Show current balance\n" ++
  "• /add [amount] [reason] - Add funds\n" ++
  "• /sub [amount] [reason] - Withdraw\n" ++
  "• /history - Show last 10 transactions\n" ++
  "• /set [amount] - Change weekly allowance\n" ++
  "• /usage - Show this menu"

/-- The body of the outer `try` of `BudgetBot.handle_command`
(src/budget_bot.py lines 86-134); an `error` result is an uncaught
Python exception reaching the outer `except`. -/
def budgetHandleCore (pf : String → Except String ℚ) (fmt : ℚ → String)
    (s : BudgetState) (nowStr : String) (text : String) :
    Except String (Option String × BudgetState) :=
  match pySplit text with
  | [] => Except.ok (none, s)
  | cmd0 :: rest =>
    let cmd := pyLower cmd0
    if cmd = "/usage" ∨ cmd = "/help" then
      Except.ok (some budgetUsageText, s)
    else if cmd = "/balance" then
      Except.ok (some ("💰 Balance: £" ++ fmt s.balance), s)
    else if cmd = "/history" then
      if s.history = [] then
        Except.ok (some "📜 No transactions yet.", s)
      else
        Except.ok (some ("📜 Recent History:\n" ++ String.intercalate "\n"
          (s.history.map (fun h =>
            "• " ++ h.date ++ ": £" ++ fmt h.amount ++ " (" ++ h.comment ++ ")"))), s)
    else if (cmd = "/add" ∨ cmd = "/sub" ∨ cmd = "/withdraw") ∧ rest ≠ [] then
      match rest with
      | [] => Except.ok (none, s)
      | a1 :: rest2 =>
        match pf a1 with
        | Except.error _ =>
          Except.ok (some "⚠️ Invalid amount. Use: /add 5.00 chocolate", s)
        | Except.ok amt0 =>
          let comment := if rest2 ≠ [] then String.intercalate " " rest2 else ""
          let amt := if cmd = "/sub" ∨ cmd = "/withdraw" then -amt0 else amt0
          let action :=
            if cmd = "/sub" ∨ cmd = "/withdraw" then "Subtracted" else "Added"
          let s2 := add_transaction s amt comment nowStr
          Except.ok (some ("✅ " ++ action ++ " £" ++ fmt |amt| ++
            ". New Balance: £" ++ fmt s2.balance), s2)
    else if cmd = "/set" ∧ rest ≠ [] then
      match rest with
      | [] => Except.ok (none, s)
      | a1 :: _ =>
        match pf a1 with
        | Except.error e => Except.error e
        | Except.ok v =>
          Except.ok (some ("⚙️ Weekly amount set to £" ++ fmt v),
            { s with weekly_amount := v })
    else
      Except.ok (none, s)

/-- `BudgetBot.handle_command` with its outer
`except Exception as e: return f"⚠️ Error: \x7bstr(e)\x7d"`
(src/budget_bot.py lines 132-133). -/
def budget_handle_command (pf : String → Except String ℚ) (fmt : ℚ → String)
    (s : BudgetState) (nowStr : String) (text : String) :
    Option String × BudgetState :=
  match budgetHandleCore pf fmt s nowStr text with
  | Except.ok r => r
  | Except.error e => (some ("⚠️ Error: " ++ e), s)

/-- **C8, counterexample** — the claim says a failure never surfaces the
raw text of an internal error; but `/set abc`, when the conversion
raises with message "could not convert string to float: abc", replies
with exactly that raw message after a "⚠️ Error: " marker. -/
theorem c8_counterexample :
    (budget_handle_command
        (fun _ => Except.error "could not convert string to float: abc")
        (fun _ => "") (budgetDefaultState 0) "d" "/set abc").1 =
      some ("⚠️ Error: " ++ "could not convert string to float: abc") := by
  decide

/-- **C8, amended** — every failure raised while handling a command is
caught (the handler is total) and surfaces as either no reply or a text
reply; the inner `/add`/`/sub` conversion failure yields a fixed
plain-language reply, but any failure reaching the outer catch-all —
e.g. a conversion failure in `/set` — is surfaced as "⚠️ Error: "
followed by the raw internal exception message, with the state
unchanged. -/
theorem c8_error_reply_shape (pf : String → Except String ℚ)
    (fmt : ℚ → String) (s : BudgetState) (nowStr : String) (msg : String)
    (h : pf "abc" = Except.error msg) :
    budget_handle_command pf fmt s nowStr "/set abc" =
      (some ("⚠️ Error: " ++ msg), s) ∧
    (budget_handle_command pf fmt s nowStr "/add abc").1 =
      some "⚠️ Invalid amount. Use: /add 5.00 chocolate" := by
  have hsplitSet : pySplit "/set abc" = ["/set", "abc"] := by decide
  have hsplitAdd : pySplit "/add abc" = ["/add", "abc"] := by decide
  have hlowSet : pyLower "/set" = "/set" := by decide
  have hlowAdd : pyLower "/add" = "/add" := by decide
  constructor
  · simp [budget_handle_command, budgetHandleCore, hsplitSet, hlowSet, h]
  · simp [budget_handle_command, budgetHandleCore, hsplitAdd, hlowAdd, h]

/-- Witness for the amended C8 with a concrete conversion oracle. -/
theorem c8_error_reply_shape_witness :
    ((fun _ => Except.error "boom" : String → Except String ℚ) "abc" =
        Except.error "boom") ∧
    (budget_handle_command (fun _ => Except.error "boom") (fun _ => "")
        (budgetDefaultState 0) "d" "/set abc" =
      (some ("⚠️ Error: " ++ "boom"), budgetDefaultState 0) ∧
    (budget_handle_command (fun _ => Except.error "boom") (fun _ => "")
        (budgetDefaultState 0) "d" "/add abc").1 =
      some "⚠️ Invalid amount. Use: /add 5.00 chocolate") :=
  ⟨rfl, c8_error_reply_shape (fun _ => Except.error "boom") (fun _ => "")
    (budgetDefaultState 0) "d" "boom" rfl⟩

/-- Witness for C6 with concrete distinct keys. -/
theorem c6_router_isolation_witness :
    master_route ⟨some "b", some "t", some "c", some "T", some "n"⟩
        (some "b") "/x" = some BotHandler.budget ∧
    master_route ⟨some "b", some "t", some "c", some "T", some "n"⟩
        (some "t") "/x" = some BotHandler.train ∧
    master_route ⟨some "b", some "t", some "c", some "T", some "n"⟩
        (some "c") "/x" = some BotHandler.bin ∧
    master_route ⟨some "b", some "t", some "c", some "T", some "n"⟩
        (some "n") "/x" = some BotHandler.nest ∧
    ∀ id : Option String, id ≠ some "b" → id ≠ some "t" → id ≠ some "c" →
      id ≠ some "n" →
      master_route ⟨some "b", some "t", some "c", some "T", some "n"⟩ id "/x" = none :=
  c6_router_isolation ⟨some "b", some "t", some "c", some "T", some "n"⟩
    "b" "t" "c" "n" "/x" rfl rfl rfl rfl
    (by decide) (by decide) (by decide) (by decide) (by decide) (by decide)
    (by decide)

/-! ## Bin bot milestone cycle (C4, `src/bin_bot.py` lines 106-177)

Time is in minutes (`ℚ`).  The anchor is `next_date`, the midnight of
the nearest collection day (`strptime` of a date-only string).  One
cycle of `bin_scheduler` steps through the three milestone targets in
sequence; `now` is refreshed by `datetime.now()` only after firing an
alert, which the model makes explicit: `w1` and `w2` are the clock
values observed after the two alert sleeps. -/

/-- Night-before target: the day before the anchor at 18:00
(src/bin_bot.py lines 144-145). -/
def nightBefore (anchor : ℚ) : ℚ := anchor - 360

/-- Morning-of target: the anchor day at 07:00 (line 155). -/
def morningOf (anchor : ℚ) : ℚ := anchor + 420

/-- Refresh target: the day after the anchor at 09:00 (line 164). -/
def refreshTime (anchor : ℚ) : ℚ := anchor + 1980

/-- The observable events of one cycle. -/
inductive BinEvent where
  | sleep (duration : ℚ)
  | nightBeforeAlert
  | morningOfAlert
  | refresh
deriving DecidableEq, Repr

/-- Is the event a milestone action (an alert or the refresh fetch)? -/
def binIsFire : BinEvent → Bool
  | BinEvent.sleep _ => false
  | _ => true

/-- The value of `now` after the night-before milestone (refetched by
`datetime.now()` at src/bin_bot.py line 152 only when the alert fired). -/
def binNow1 (anchor now0 w1 : ℚ) : ℚ :=
  if now0 < nightBefore anchor then w1 else now0

/-- The value of `now` after the morning-of milestone (line 161). -/
def binNow2 (anchor now0 w1 w2 : ℚ) : ℚ :=
  if binNow1 anchor now0 w1 < morningOf anchor then w2 else binNow1 anchor now0 w1

/-- The event trace of one `bin_scheduler` milestone sequence
(src/bin_bot.py lines 142-173): each alert milestone sleeps and fires
only if its target is still in the future; the refresh fetch at line
172 runs unconditionally at the end of the cycle. -/
def bin_cycle (anchor now0 w1 w2 : ℚ) : List BinEvent :=
  (if now0 < nightBefore anchor then
    [BinEvent.sleep (nightBefore anchor - now0), BinEvent.nightBeforeAlert]
   else []) ++
  (if binNow1 anchor now0 w1 < morningOf anchor then
    [BinEvent.sleep (morningOf anchor - binNow1 anchor now0 w1),
     BinEvent.morningOfAlert]
   else []) ++
  (if binNow2 anchor now0 w1 w2 < refreshTime anchor then
    [BinEvent.sleep (refreshTime anchor - binNow2 anchor now0 w1 w2)]
   else []) ++
  [BinEvent.refresh]

/-- **C4, counterexample** — the claim says any milestone whose target is
already ≤ now is skipped and never fired; but with the process started
after the refresh target (`anchor = 10000`, `now = 13000 ≥ anchor +
1980`), the cycle still performs the refresh milestone. -/
theorem c4_counterexample :
    refreshTime 10000 ≤ 13000 ∧
    bin_cycle 10000 13000 0 0 = [BinEvent.refresh] := by
  constructor
  · norm_num [refreshTime]
  · have c1 : ¬ ((13000 : ℚ) < nightBefore 10000) := by norm_num [nightBefore]
    have c2 : ¬ (binNow1 10000 13000 0 < morningOf 10000) := by
      norm_num [binNow1, nightBefore, morningOf]
    have c3 : ¬ (binNow2 10000 13000 0 0 < refreshTime 10000) := by
      norm_num [binNow2, binNow1, nightBefore, morningOf, refreshTime]
    simp [bin_cycle, c1, c2, c3]

/-- **C4, amended** — within one cycle for a fixed anchor the milestone
actions occur in ascending offset order (night-before 18:00, morning-of
07:00, refresh 09:00 next day); each of the two reminder milestones
fires exactly when its target is still in the future at its evaluation
time and is skipped (never fired retroactively) otherwise; every sleep
in the cycle has positive duration (a passed target is never waited
on); and the refresh step always executes, as the last event of the
cycle. -/
theorem c4_milestone_order_and_skip (anchor now0 w1 w2 : ℚ) :
    ((bin_cycle anchor now0 w1 w2).filter binIsFire).Sublist
      [BinEvent.nightBeforeAlert, BinEvent.morningOfAlert, BinEvent.refresh] ∧
    (bin_cycle anchor now0 w1 w2).getLast? = some BinEvent.refresh ∧
    (BinEvent.nightBeforeAlert ∈ bin_cycle anchor now0 w1 w2 ↔
      now0 < nightBefore anchor) ∧
    (BinEvent.morningOfAlert ∈ bin_cycle anchor now0 w1 w2 ↔
      binNow1 anchor now0 w1 < morningOf anchor) ∧
    (∀ d : ℚ, BinEvent.sleep d ∈ bin_cycle anchor now0 w1 w2 → 0 < d) := by
  by_cases c1 : now0 < nightBefore anchor <;>
    by_cases c2 : binNow1 anchor now0 w1 < morningOf anchor <;>
      by_cases c3 : binNow2 anchor now0 w1 w2 < refreshTime anchor <;>
        refine ⟨by simp [bin_cycle, c1, c2, c3, binIsFire], ?_, ?_, ?_, ?_⟩ <;>
          simp only [bin_cycle, c1, c2, c3, if_true, if_false, ite_true,
            ite_false, List.append_assoc, List.cons_append, List.nil_append,
            List.mem_append, List.mem_cons, List.mem_singleton,
            List.getLast?_append, List.getLast?_singleton] <;>
          simp_all

/-! ## Train bot (`src/train_bot.py`)

Subscriptions are the Python dict `time -> (origin, last_status,
last_platform, dest)`, modelled as an insertion-ordered association
list (Python dicts preserve insertion order; assignment to an existing
key keeps its position).  A fetched departure record carries the fields
built in `fetch_trains` (src/train_bot.py line 82). -/

/-- One record produced by `TrainBot.fetch_trains`. -/
structure Train where
  std : String
  etd : String
  dest : String
  plat : String
  eta : String
deriving DecidableEq, Repr

/-- One subscription value `(origin, last_status, last_platform, dest)`
(src/train_bot.py lines 17 and 168); `dest` is `None` when the watch
was created without a destination filter. -/
structure Sub where
  origin : String
  status : String
  plat : String
  dest : Option String
deriving DecidableEq, Repr

/-- An alert pushed by `monitor_subscriptions` (src/train_bot.py line
106); the four fields are exactly the values interpolated into the
message text. -/
structure Alert where
  key : String
  station : String
  status : String
  plat : String
deriving DecidableEq, Repr

/-- The message text of an alert (src/train_bot.py line 106). -/
def renderAlert (a : Alert) : String :=
  "⚠️ **UPDATE**: " ++ a.key ++ " from **" ++ a.station ++ "** is **" ++
    a.status ++ "** [P" ++ a.plat ++ "]"

/-- The subscriptions dict. -/
abbrev SubsMap := List (String × Sub)

/-- Python dict assignment `subs[k] = v`: replace in place when the key
exists, append otherwise. -/
def dictSet (m : SubsMap) (k : String) (v : Sub) : SubsMap :=
  if m.any (fun p => p.1 = k) then
    m.map (fun p => if p.1 = k then (k, v) else p)
  else m ++ [(k, v)]

/-- Python dict lookup. -/
def dictGet (m : SubsMap) (k : String) : Option Sub :=
  (m.find? (fun p => p.1 = k)).map Prod.snd

/-- `next((t for t in trains if t["std"] == time_t), None)`
(src/train_bot.py lines 101 and 156). -/
def findMatch (trains : List Train) (t : String) : Option Train :=
  trains.find? (fun tr => tr.std = t)

/-- Does `pat` occur as a contiguous substring? -/
def occursInChars (pat : List Char) : List Char → Bool
  | [] => startsWithChars pat []
  | c :: cs => startsWithChars pat (c :: cs) || occursInChars pat cs

/-- Python `"Departed" in cur_status` (src/train_bot.py line 107). -/
def hasDeparted (s : String) : Bool :=
  occursInChars "Departed".data s.data

/-! Association-list lemmas for the subscriptions dict. -/

theorem find?_dictSet_map_self (m : SubsMap) (k : String) (v : Sub) :
    (m.map (fun p => if p.1 = k then (k, v) else p)).find?
        (fun p => decide (p.1 = k)) =
      ((m.find? (fun p => decide (p.1 = k))).map (fun _ => (k, v))) := by
  induction m with
  | nil => rfl
  | cons c cs ih =>
    by_cases hc : c.1 = k
    · rw [List.map_cons, if_pos hc]
      rw [List.find?_cons_of_pos _ (by simp), List.find?_cons_of_pos _ (by simp [hc])]
      rfl
    · rw [List.map_cons, if_neg hc]
      rw [List.find?_cons_of_neg _ (by simp [hc]), List.find?_cons_of_neg _ (by simp [hc])]
      exact ih

theorem find?_append_none (m : SubsMap) (k : String) (v : Sub)
    (h : m.find? (fun p => decide (p.1 = k)) = none) :
    (m ++ [(k, v)]).find? (fun p => decide (p.1 = k)) = some (k, v) := by
  induction m with
  | nil => simp
  | cons c cs ih =>
    by_cases hc : c.1 = k
    · exfalso
      rw [List.find?_cons_of_pos _ (by simp [hc])] at h
      exact Option.noConfusion h
    · rw [List.find?_cons_of_neg _ (by simp [hc])] at h
      rw [List.cons_append, List.find?_cons_of_neg _ (by simp [hc])]
      exact ih h

theorem find?_map_ne (m : SubsMap) (k k2 : String) (v : Sub) (h : k2 ≠ k) :
    (m.map (fun p => if p.1 = k2 then (k2, v) else p)).find?
        (fun p => decide (p.1 = k)) =
      m.find? (fun p => decide (p.1 = k)) := by
  induction m with
  | nil => rfl
  | cons c cs ih =>
    by_cases hc : c.1 = k2
    · have hck : ¬ (c.1 = k) := by rw [hc]; exact h
      rw [List.map_cons, if_pos hc]
      rw [List.find?_cons_of_neg _ (by simp [h]), List.find?_cons_of_neg _ (by simp [hck])]
      exact ih
    · rw [List.map_cons, if_neg hc]
      by_cases hck : c.1 = k
      · rw [List.find?_cons_of_pos _ (by simp [hck]),
          List.find?_cons_of_pos _ (by simp [hck])]
      · rw [List.find?_cons_of_neg _ (by simp [hck]),
          List.find?_cons_of_neg _ (by simp [hck])]
        exact ih

theorem find?_append_ne (m : SubsMap) (k k2 : String) (v : Sub) (h : k2 ≠ k) :
    (m ++ [(k2, v)]).find? (fun p => decide (p.1 = k)) =
      m.find? (fun p => decide (p.1 = k)) := by
  induction m with
  | nil => simp [h]
  | cons c cs ih =>
    by_cases hc : c.1 = k
    · rw [List.cons_append, List.find?_cons_of_pos _ (by simp [hc]),
        List.find?_cons_of_pos _ (by simp [hc])]
    · rw [List.cons_append, List.find?_cons_of_neg _ (by simp [hc]),
        List.find?_cons_of_neg _ (by simp [hc])]
      exact ih

theorem dictGet_dictSet_self (m : SubsMap) (k : String) (v : Sub) :
    dictGet (dictSet m k v) k = some v := by
  rw [dictSet]
  by_cases h : m.any (fun p => p.1 = k) = true
  · rw [if_pos h, dictGet, find?_dictSet_map_self]
    obtain ⟨p, hp, hpk⟩ := List.any_eq_true.mp h
    have hsome : (m.find? (fun p => decide (p.1 = k))).isSome :=
      List.find?_isSome.mpr ⟨p, hp, hpk⟩
    obtain ⟨q, hq⟩ := Option.isSome_iff_exists.mp hsome
    rw [hq]
    rfl
  · rw [if_neg h, dictGet]
    have hnone : m.find? (fun p => decide (p.1 = k)) = none := by
      rw [List.find?_eq_none]
      intro p hp
      simp only [decide_eq_true_eq]
      intro hpk
      exact h (List.any_eq_true.mpr ⟨p, hp, by simpa using hpk⟩)
    rw [find?_append_none m k v hnone]
    rfl

theorem dictGet_dictSet_ne (m : SubsMap) (k k2 : String) (v : Sub)
    (h : k2 ≠ k) : dictGet (dictSet m k2 v) k = dictGet m k := by
  rw [dictSet]
  by_cases hany : m.any (fun p => p.1 = k2) = true
  · rw [if_pos hany, dictGet, dictGet, find?_map_ne m k k2 v h]
  · rw [if_neg hany, dictGet, dictGet, find?_append_ne m k k2 v h]

theorem keys_dictSet_of_any (m : SubsMap) (k : String) (v : Sub)
    (h : m.any (fun p => p.1 = k) = true) :
    (dictSet m k v).map Prod.fst = m.map Prod.fst := by
  rw [dictSet, if_pos h]
  rw [List.map_map]
  apply List.map_congr_left
  intro p _
  by_cases hp : p.1 = k
  · simp [hp]
  · simp [hp]

theorem keys_dictSet_superset (m : SubsMap) (k : String) (v : Sub)
    (x : String) (hx : x ∈ m.map Prod.fst) :
    x ∈ (dictSet m k v).map Prod.fst := by
  rw [dictSet]
  by_cases h : m.any (fun p => p.1 = k) = true
  · rw [if_pos h, List.map_map]
    obtain ⟨p, hp, rfl⟩ := List.mem_map.mp hx
    refine List.mem_map.mpr ⟨p, hp, ?_⟩
    by_cases hpk : p.1 = k
    · simp [hpk]
    · simp [hpk]
  · rw [if_neg h]
    simp only [List.map_append, List.mem_append]
    exact Or.inl hx

/-! ### The watch-diff tick (`TrainBot.monitor_subscriptions`,
src/train_bot.py lines 88-113)

One tick: group watches by origin station (a Python `set`, modelled as
the deduplicated first-occurrence list of origins), fetch once per
station, then for each subscription snapshot entry of that station
compare the fingerprint, update the dict in place and collect alerts
and a removal list; keys in the removal list are popped only after the
whole pass.  `fetch_trains` swallows every error and returns `[]`
(src/train_bot.py lines 59-86), so a fetch failure is a fetcher `f`
returning `[]` for that station. -/

/-- The mutable state of one tick: the subscriptions dict, the
`to_remove` list and the alerts pushed so far. -/
structure TickState where
  subs : SubsMap
  toRemove : List String
  alerts : List Alert
deriving DecidableEq, Repr

/-- The body of the inner `for time_t, (...) in list(...items())` loop
for one snapshot entry `e` under station `station` (src/train_bot.py
lines 98-109). -/
def stepEntry (f : String → List Train) (station : String)
    (acc : TickState) (e : String × Sub) : TickState :=
  if e.2.origin = station then
    match findMatch (f station) e.1 with
    | some m =>
      let acc1 :=
        if m.etd ≠ e.2.status ∨ m.plat ≠ e.2.plat then
          { acc with
              subs := dictSet acc.subs e.1 ⟨station, m.etd, m.plat, e.2.dest⟩,
              alerts := acc.alerts ++ [⟨e.1, station, m.etd, m.plat⟩] }
        else acc
      if hasDeparted m.etd then
        { acc1 with toRemove := acc1.toRemove ++ [e.1] }
      else acc1
    | none => { acc with toRemove := acc.toRemove ++ [e.1] }
  else acc

/-- Processing one station: the inner loop runs over the snapshot
`list(self.subscriptions.items())` taken at the start of the station
iteration, i.e. the current dict contents. -/
def stationStep (f : String → List Train) (station : String)
    (st : TickState) : TickState :=
  st.subs.foldl (stepEntry f station) st

/-- `{s for s, _, _, _ in self.subscriptions.values()}` (line 94):
the distinct origin stations. -/
def stationsOf (subs : SubsMap) : List String :=
  (subs.map (fun p => p.2.origin)).dedup

/-- The alert/update/collect pass of one tick, before removal. -/
def tickCore (f : String → List Train) (subs0 : SubsMap) : TickState :=
  (stationsOf subs0).foldl (fun st s => stationStep f s st)
    { subs := subs0, toRemove := [], alerts := [] }

/-- One complete tick of `monitor_subscriptions`: the pass above,
then `for t in to_remove: self.subscriptions.pop(t, None)` (line 110). -/
def monitor_tick (f : String → List Train) (subs0 : SubsMap) : TickState :=
  let st := tickCore f subs0
  { st with subs := st.subs.filter (fun p => decide (p.1 ∉ st.toRemove)) }

/-! Per-entry effect functions: what one snapshot entry contributes to
the dict, the alert list and the removal list.  These are the
specification layer the step lemmas below relate to `stepEntry`. -/

/-- The dict update for entry `e` under `station`, if any. -/
def entryUpd (f : String → List Train) (station : String)
    (e : String × Sub) : Option Sub :=
  if e.2.origin = station then
    match findMatch (f station) e.1 with
    | some m =>
      if m.etd ≠ e.2.status ∨ m.plat ≠ e.2.plat then
        some ⟨station, m.etd, m.plat, e.2.dest⟩
      else none
    | none => none
  else none

/-- The alerts entry `e` contributes under `station`. -/
def entryAlertsAt (f : String → List Train) (station : String)
    (e : String × Sub) : List Alert :=
  if e.2.origin = station then
    match findMatch (f station) e.1 with
    | some m =>
      if m.etd ≠ e.2.status ∨ m.plat ≠ e.2.plat then
        [⟨e.1, station, m.etd, m.plat⟩]
      else []
    | none => []
  else []

/-- The removal-list items entry `e` contributes under `station`. -/
def entryRemovesAt (f : String → List Train) (station : String)
    (e : String × Sub) : List String :=
  if e.2.origin = station then
    match findMatch (f station) e.1 with
    | some m => if hasDeparted m.etd then [e.1] else []
    | none => [e.1]
  else []

theorem stepEntry_spec (f : String → List Train) (station : String)
    (acc : TickState) (e : String × Sub) :
    (stepEntry f station acc e).subs =
      (match entryUpd f station e with
       | some v => dictSet acc.subs e.1 v
       | none => acc.subs) ∧
    (stepEntry f station acc e).alerts =
      acc.alerts ++ entryAlertsAt f station e ∧
    (stepEntry f station acc e).toRemove =
      acc.toRemove ++ entryRemovesAt f station e := by
  by_cases ho : e.2.origin = station
  · rcases hfm : findMatch (f station) e.1 with _ | m
    · simp [stepEntry, entryUpd, entryAlertsAt, entryRemovesAt, ho, hfm]
    · by_cases hch : m.etd ≠ e.2.status ∨ m.plat ≠ e.2.plat
      · by_cases hdep : hasDeparted m.etd
        · simp [stepEntry, entryUpd, entryAlertsAt, entryRemovesAt, ho, hfm,
            hch, hdep]
        · simp [stepEntry, entryUpd, entryAlertsAt, entryRemovesAt, ho, hfm,
            hch, hdep]
      · by_cases hdep : hasDeparted m.etd
        · simp [stepEntry, entryUpd, entryAlertsAt, entryRemovesAt, ho, hfm,
            hch, hdep]
        · simp [stepEntry, entryUpd, entryAlertsAt, entryRemovesAt, ho, hfm,
            hch, hdep]
  · simp [stepEntry, entryUpd, entryAlertsAt, entryRemovesAt, ho]

/-- The dict evolution of a fold of `stepEntry` steps, isolated. -/
def subsFold (f : String → List Train) (station : String)
    (es : List (String × Sub)) (m : SubsMap) : SubsMap :=
  es.foldl (fun m e =>
    match entryUpd f station e with
    | some v => dictSet m e.1 v
    | none => m) m

theorem foldl_stepEntry_spec (f : String → List Train) (station : String) :
    ∀ (es : List (String × Sub)) (acc : TickState),
    (es.foldl (stepEntry f station) acc).subs =
      subsFold f station es acc.subs ∧
    (es.foldl (stepEntry f station) acc).alerts =
      acc.alerts ++ es.flatMap (entryAlertsAt f station) ∧
    (es.foldl (stepEntry f station) acc).toRemove =
      acc.toRemove ++ es.flatMap (entryRemovesAt f station)
  | [], acc => by simp [subsFold]
  | e :: es, acc => by
    obtain ⟨h1, h2, h3⟩ := foldl_stepEntry_spec f station es (stepEntry f station acc e)
    obtain ⟨g1, g2, g3⟩ := stepEntry_spec f station acc e
    refine ⟨?_, ?_, ?_⟩
    · rw [List.foldl_cons, h1, g1]
      rfl
    · rw [List.foldl_cons, h2, g2, List.flatMap_cons, List.append_assoc]
    · rw [List.foldl_cons, h3, g3, List.flatMap_cons, List.append_assoc]

/-! Lookup and key lemmas for the tick. -/

theorem nodup_keys_cons {c : String × Sub} {cs : List (String × Sub)}
    (h : ((c :: cs).map Prod.fst).Nodup) :
    c.1 ∉ cs.map Prod.fst ∧ (cs.map Prod.fst).Nodup := by
  rw [List.map_cons] at h
  exact List.nodup_cons.mp h

theorem dictGet_of_mem_nodup :
    ∀ (m : SubsMap) (k : String) (v : Sub),
    (m.map Prod.fst).Nodup → (k, v) ∈ m → dictGet m k = some v
  | [], _, _, _, hmem => absurd hmem (List.not_mem_nil _)
  | c :: cs, k, v, hnd, hmem => by
    rcases List.mem_cons.mp hmem with heq | hmem2
    · rw [dictGet, List.find?_cons_of_pos _ (by simp [← heq])]
      simp [← heq]
    · have hkeys : k ∈ cs.map Prod.fst :=
        List.mem_map_of_mem Prod.fst hmem2
      have hck : ¬ (c.1 = k) := by
        intro h
        have := (nodup_keys_cons hnd).1
        rw [h] at this
        exact this hkeys
      rw [dictGet, List.find?_cons_of_neg _ (by simp [hck])]
      exact dictGet_of_mem_nodup cs k v
        (nodup_keys_cons hnd).2 hmem2

theorem dictGet_subsFold_not_mem (f : String → List Train) (station : String) :
    ∀ (es : List (String × Sub)) (m : SubsMap) (k : String),
    (∀ e ∈ es, e.1 ≠ k) →
    dictGet (subsFold f station es m) k = dictGet m k
  | [], _, _, _ => rfl
  | e :: es, m, k, h => by
    have hek : e.1 ≠ k := h e (List.mem_cons_self e es)
    have hrest : ∀ e2 ∈ es, e2.1 ≠ k :=
      fun e2 he2 => h e2 (List.mem_cons_of_mem e he2)
    rw [subsFold, List.foldl_cons]
    rcases hupd : entryUpd f station e with _ | v <;> dsimp only
    · exact dictGet_subsFold_not_mem f station es m k hrest
    · exact (dictGet_subsFold_not_mem f station es (dictSet m e.1 v) k
        hrest).trans (dictGet_dictSet_ne m k e.1 v hek)

theorem dictGet_subsFold_mem (f : String → List Train) (station : String) :
    ∀ (es : List (String × Sub)) (m : SubsMap) (k : String) (x : Sub),
    (es.map Prod.fst).Nodup → (k, x) ∈ es →
    dictGet (subsFold f station es m) k =
      (match entryUpd f station (k, x) with
       | some v => some v
       | none => dictGet m k)
  | [], _, _, _, _, hmem => absurd hmem (List.not_mem_nil _)
  | e :: es, m, k, x, hnd, hmem => by
    rw [subsFold, List.foldl_cons]
    rcases List.mem_cons.mp hmem with heq | hmem2
    · subst heq
      have hfst : k ∉ es.map Prod.fst := (nodup_keys_cons hnd).1
      have hrest : ∀ e2 ∈ es, e2.1 ≠ k := by
        intro e2 he2 hk
        exact hfst (hk ▸ List.mem_map_of_mem Prod.fst he2)
      have hfold := dictGet_subsFold_not_mem f station es
      rcases hupd : entryUpd f station (k, x) with _ | v <;> dsimp only
      · exact hfold m k hrest
      · exact (hfold (dictSet m k v) k hrest).trans (dictGet_dictSet_self m k v)
    · have hek : e.1 ≠ k := by
        intro hk
        have hkeys : k ∈ es.map Prod.fst :=
          List.mem_map_of_mem Prod.fst hmem2
        have := (nodup_keys_cons hnd).1
        rw [hk] at this
        exact this hkeys
      have hnd2 : (es.map Prod.fst).Nodup :=
        (nodup_keys_cons hnd).2
      rcases hupd : entryUpd f station e with _ | v <;> dsimp only
      · exact dictGet_subsFold_mem f station es m k x hnd2 hmem2
      · refine (dictGet_subsFold_mem f station es (dictSet m e.1 v) k x hnd2
          hmem2).trans ?_
        rcases entryUpd f station (k, x) with _ | w
        · dsimp only
          exact dictGet_dictSet_ne m k e.1 v hek
        · rfl

theorem keys_subsFold (f : String → List Train) (station : String) :
    ∀ (es : List (String × Sub)) (m : SubsMap),
    (∀ e ∈ es, e.1 ∈ m.map Prod.fst) →
    (subsFold f station es m).map Prod.fst = m.map Prod.fst
  | [], _, _ => rfl
  | e :: es, m, h => by
    rw [subsFold, List.foldl_cons]
    rcases hupd : entryUpd f station e with _ | v <;> dsimp only
    · exact keys_subsFold f station es m
        (fun e2 he2 => h e2 (List.mem_cons_of_mem e he2))
    · have hk := h e (List.mem_cons_self e es)
      have hany : m.any (fun p => p.1 = e.1) = true := by
        obtain ⟨p, hp, hpe⟩ := List.mem_map.mp hk
        exact List.any_eq_true.mpr ⟨p, hp, by simp [hpe]⟩
      have hkeys := keys_dictSet_of_any m e.1 v hany
      refine (keys_subsFold f station es (dictSet m e.1 v) ?_).trans hkeys
      intro e2 he2
      rw [hkeys]
      exact h e2 (List.mem_cons_of_mem e he2)

theorem mem_entryAlertsAt_key (f : String → List Train) (station : String)
    (e : String × Sub) (a : Alert) (h : a ∈ entryAlertsAt f station e) :
    a.key = e.1 := by
  by_cases ho : e.2.origin = station
  · rw [entryAlertsAt, if_pos ho] at h
    rcases hfm : findMatch (f station) e.1 with _ | m <;> rw [hfm] at h <;>
      dsimp only at h
    · exact absurd h (List.not_mem_nil a)
    · by_cases hch : m.etd ≠ e.2.status ∨ m.plat ≠ e.2.plat
      · rw [if_pos hch] at h
        rcases List.mem_cons.mp h with heq | hnil
        · rw [heq]
        · exact absurd hnil (List.not_mem_nil a)
      · rw [if_neg hch] at h
        exact absurd h (List.not_mem_nil a)
  · rw [entryAlertsAt, if_neg ho] at h
    exact absurd h (List.not_mem_nil a)

theorem mem_entryRemovesAt_key (f : String → List Train) (station : String)
    (e : String × Sub) (x : String) (h : x ∈ entryRemovesAt f station e) :
    x = e.1 := by
  by_cases ho : e.2.origin = station
  · rw [entryRemovesAt, if_pos ho] at h
    rcases hfm : findMatch (f station) e.1 with _ | m <;> rw [hfm] at h <;>
      dsimp only at h
    · rcases List.mem_cons.mp h with heq | hnil
      · exact heq
      · exact absurd hnil (List.not_mem_nil x)
    · by_cases hdep : hasDeparted m.etd
      · rw [if_pos hdep] at h
        rcases List.mem_cons.mp h with heq | hnil
        · exact heq
        · exact absurd hnil (List.not_mem_nil x)
      · rw [if_neg hdep] at h
        exact absurd h (List.not_mem_nil x)
  · rw [entryRemovesAt, if_neg ho] at h
    exact absurd h (List.not_mem_nil x)

/-- Entries of a foreign partition contribute nothing. -/
theorem entry_off_station (f : String → List Train) (station : String)
    (e : String × Sub) (h : e.2.origin ≠ station) :
    entryUpd f station e = none ∧ entryAlertsAt f station e = [] ∧
    entryRemovesAt f station e = [] := by
  refine ⟨?_, ?_, ?_⟩ <;>
    simp [entryUpd, entryAlertsAt, entryRemovesAt, h]

theorem filter_flatMap_alerts_nil (f : String → List Train) (station : String)
    (k : String) :
    ∀ (es : List (String × Sub)),
    (∀ e ∈ es, e.1 = k → entryAlertsAt f station e = []) →
    (es.flatMap (entryAlertsAt f station)).filter
      (fun a => decide (a.key = k)) = []
  | [], _ => rfl
  | e :: es, h => by
    rw [List.flatMap_cons, List.filter_append]
    have h1 : (entryAlertsAt f station e).filter
        (fun a => decide (a.key = k)) = [] := by
      rw [List.filter_eq_nil_iff]
      intro a ha
      simp only [decide_eq_true_eq]
      intro hak
      have := mem_entryAlertsAt_key f station e a ha
      rw [this] at hak
      rw [h e (List.mem_cons_self e es) hak] at ha
      exact List.not_mem_nil a ha
    rw [h1, List.nil_append]
    exact filter_flatMap_alerts_nil f station k es
      (fun e2 he2 => h e2 (List.mem_cons_of_mem e he2))

theorem filter_flatMap_alerts_single (f : String → List Train)
    (station : String) (k : String) (x : Sub) :
    ∀ (es : List (String × Sub)),
    (es.map Prod.fst).Nodup → (k, x) ∈ es →
    (es.flatMap (entryAlertsAt f station)).filter
      (fun a => decide (a.key = k)) = entryAlertsAt f station (k, x)
  | [], _, hmem => absurd hmem (List.not_mem_nil _)
  | e :: es, hnd, hmem => by
    rw [List.flatMap_cons, List.filter_append]
    rcases List.mem_cons.mp hmem with heq | hmem2
    · have hfst : k ∉ es.map Prod.fst := by
        have := (nodup_keys_cons hnd).1
        rw [← heq] at this
        exact this
      have hkeep : (entryAlertsAt f station e).filter
          (fun a => decide (a.key = k)) = entryAlertsAt f station e := by
        rw [List.filter_eq_self]
        intro a ha
        simp only [decide_eq_true_eq]
        rw [mem_entryAlertsAt_key f station e a ha, ← heq]
      have hrest : (es.flatMap (entryAlertsAt f station)).filter
          (fun a => decide (a.key = k)) = [] := by
        refine filter_flatMap_alerts_nil f station k es ?_
        intro e2 he2 hk
        exact absurd (hk ▸ List.mem_map_of_mem Prod.fst he2) hfst
      rw [hkeep, hrest, List.append_nil, ← heq]
    · have hek : e.1 ≠ k := by
        intro hk
        have hkeys : k ∈ es.map Prod.fst :=
          List.mem_map_of_mem Prod.fst hmem2
        have := (nodup_keys_cons hnd).1
        rw [hk] at this
        exact this hkeys
      have hdrop : (entryAlertsAt f station e).filter
          (fun a => decide (a.key = k)) = [] := by
        rw [List.filter_eq_nil_iff]
        intro a ha
        simp only [decide_eq_true_eq]
        intro hak
        exact hek ((mem_entryAlertsAt_key f station e a ha) ▸ hak ▸ rfl)
      rw [hdrop, List.nil_append]
      exact filter_flatMap_alerts_single f station k x es
        (nodup_keys_cons hnd).2 hmem2

theorem not_mem_flatMap_removes (f : String → List Train) (station : String)
    (k : String) (es : List (String × Sub))
    (h : ∀ e ∈ es, e.1 = k → entryRemovesAt f station e = []) :
    k ∉ es.flatMap (entryRemovesAt f station) := by
  intro hk
  obtain ⟨e, he, hke⟩ := List.mem_flatMap.mp hk
  have := mem_entryRemovesAt_key f station e k hke
  rw [h e he this.symm] at hke
  exact List.not_mem_nil k hke

theorem mem_flatMap_removes_iff (f : String → List Train) (station : String)
    (k : String) (x : Sub) (es : List (String × Sub))
    (hnd : (es.map Prod.fst).Nodup) (hmem : (k, x) ∈ es) :
    (k ∈ es.flatMap (entryRemovesAt f station) ↔
      k ∈ entryRemovesAt f station (k, x)) := by
  constructor
  · intro hk
    obtain ⟨e, he, hke⟩ := List.mem_flatMap.mp hk
    have heq : e = (k, x) := by
      rcases e with ⟨e1, e2⟩
      have hkey : k = e1 := mem_entryRemovesAt_key f station (e1, e2) k hke
      rw [← hkey] at he
      have hx := dictGet_of_mem_nodup es k e2 hnd he
      have h2 := dictGet_of_mem_nodup es k x hnd hmem
      rw [hx] at h2
      rw [← hkey, Option.some_inj.mp h2]
    rw [← heq]
    exact hke
  · intro hk
    exact List.mem_flatMap.mpr ⟨(k, x), hmem, hk⟩

theorem dictGet_cons_self (c : String × Sub) (cs : SubsMap) (k : String)
    (h : c.1 = k) : dictGet (c :: cs) k = some c.2 := by
  rw [dictGet, List.find?_cons_of_pos _ (by simp [h])]
  rfl

theorem dictGet_cons_ne (c : String × Sub) (cs : SubsMap) (k : String)
    (h : ¬ (c.1 = k)) : dictGet (c :: cs) k = dictGet cs k := by
  rw [dictGet, List.find?_cons_of_neg _ (by simp [h])]
  rfl

/-- Effect of the removal pass on a lookup. -/
theorem dictGet_filter_rem :
    ∀ (m : SubsMap) (rem : List String) (k : String),
    dictGet (m.filter (fun p => decide (p.1 ∉ rem))) k =
      (if k ∈ rem then none else dictGet m k)
  | [], rem, k => by
    by_cases h : k ∈ rem <;> simp [dictGet, h]
  | c :: cs, rem, k => by
    by_cases hc : c.1 ∈ rem
    · rw [List.filter_cons_of_neg (by simp [hc]), dictGet_filter_rem cs rem k]
      by_cases hk : k ∈ rem
      · rw [if_pos hk, if_pos hk]
      · have hck : ¬ (c.1 = k) := fun h => hk (h ▸ hc)
        rw [if_neg hk, if_neg hk, dictGet_cons_ne c cs k hck]
    · rw [List.filter_cons_of_pos (by simp [hc])]
      by_cases hck : c.1 = k
      · have hk : k ∉ rem := hck ▸ hc
        rw [if_neg hk, dictGet_cons_self _ _ _ hck, dictGet_cons_self _ _ _ hck]
      · rw [dictGet_cons_ne c _ k hck, dictGet_filter_rem cs rem k]
        by_cases hk : k ∈ rem
        · rw [if_pos hk, if_pos hk]
        · rw [if_neg hk, if_neg hk, dictGet_cons_ne c cs k hck]

theorem mem_of_dictGet :
    ∀ (m : SubsMap) (k : String) (v : Sub),
    dictGet m k = some v → (k, v) ∈ m
  | [], _, _, h => by simp [dictGet] at h
  | ⟨c1, c2⟩ :: cs, k, v, h => by
    by_cases hck : c1 = k
    · rw [dictGet_cons_self (c1, c2) cs k hck] at h
      have hv : c2 = v := Option.some_inj.mp h
      subst hck
      subst hv
      exact List.mem_cons_self _ _
    · rw [dictGet_cons_ne (c1, c2) cs k hck] at h
      exact List.mem_cons_of_mem _ (mem_of_dictGet cs k v h)

/-- The final stored value of the watch `(k, v)` after one alert pass:
updated from the fetch of its own origin station if the fingerprint
changed, untouched otherwise. -/
def entryFinal (f : String → List Train) (k : String) (v : Sub) : Sub :=
  match entryUpd f v.origin (k, v) with
  | some w => w
  | none => v

theorem entryUpd_origin (f : String → List Train) (station : String)
    (e : String × Sub) (w : Sub) (h : entryUpd f station e = some w) :
    w.origin = station := by
  by_cases ho : e.2.origin = station
  · rw [entryUpd, if_pos ho] at h
    rcases hfm : findMatch (f station) e.1 with _ | m <;> rw [hfm] at h <;>
      dsimp only at h
    · exact absurd h (by simp)
    · by_cases hch : m.etd ≠ e.2.status ∨ m.plat ≠ e.2.plat
      · rw [if_pos hch] at h
        rw [← Option.some_inj.mp h]
      · rw [if_neg hch] at h
        exact absurd h (by simp)
  · rw [entryUpd, if_neg ho] at h
    exact absurd h (by simp)

theorem entryFinal_origin (f : String → List Train) (k : String) (v : Sub) :
    (entryFinal f k v).origin = v.origin := by
  rw [entryFinal]
  rcases hupd : entryUpd f v.origin (k, v) with _ | w
  · rfl
  · exact entryUpd_origin f v.origin (k, v) w hupd

/-- Effect of one station pass on the designated watch `(k, v)`. -/
theorem stationStep_key_spec (f : String → List Train) (s : String)
    (st : TickState) (k : String) (v : Sub)
    (hnd : (st.subs.map Prod.fst).Nodup)
    (hget : dictGet st.subs k = some v) :
    dictGet (stationStep f s st).subs k =
      (match entryUpd f s (k, v) with
       | some w => some w
       | none => some v) ∧
    (stationStep f s st).alerts.filter (fun a => decide (a.key = k)) =
      st.alerts.filter (fun a => decide (a.key = k)) ++
        entryAlertsAt f s (k, v) ∧
    (k ∈ (stationStep f s st).toRemove ↔
      k ∈ st.toRemove ∨ k ∈ entryRemovesAt f s (k, v)) ∧
    (stationStep f s st).subs.map Prod.fst = st.subs.map Prod.fst := by
  obtain ⟨h1, h2, h3⟩ := foldl_stepEntry_spec f s st.subs st
  have hmem : (k, v) ∈ st.subs := mem_of_dictGet st.subs k v hget
  have h1' : (stationStep f s st).subs = subsFold f s st.subs st.subs := h1
  have h2' : (stationStep f s st).alerts =
      st.alerts ++ st.subs.flatMap (entryAlertsAt f s) := h2
  have h3' : (stationStep f s st).toRemove =
      st.toRemove ++ st.subs.flatMap (entryRemovesAt f s) := h3
  refine ⟨?_, ?_, ?_, ?_⟩
  · rw [h1', dictGet_subsFold_mem f s st.subs st.subs k v hnd hmem]
    rcases entryUpd f s (k, v) with _ | w
    · dsimp only
      exact hget
    · rfl
  · rw [h2', List.filter_append,
      filter_flatMap_alerts_single f s k v st.subs hnd hmem]
  · rw [h3']
    constructor
    · intro hx
      rcases List.mem_append.mp hx with h | h
      · exact Or.inl h
      · exact Or.inr ((mem_flatMap_removes_iff f s k v st.subs hnd hmem).mp h)
    · intro hx
      rcases hx with h | h
      · exact List.mem_append.mpr (Or.inl h)
      · exact List.mem_append.mpr
          (Or.inr ((mem_flatMap_removes_iff f s k v st.subs hnd hmem).mpr h))
  · rw [h1']
    exact keys_subsFold f s st.subs st.subs
      (fun e he => List.mem_map_of_mem Prod.fst he)

/-- Stations other than the watch's own origin leave it untouched. -/
theorem stationsFold_no_origin (f : String → List Train) (k : String) :
    ∀ (ss : List String) (st : TickState) (v : Sub),
    v.origin ∉ ss →
    (st.subs.map Prod.fst).Nodup →
    dictGet st.subs k = some v →
    dictGet (ss.foldl (fun st s => stationStep f s st) st).subs k = some v ∧
    (ss.foldl (fun st s => stationStep f s st) st).alerts.filter
      (fun a => decide (a.key = k)) =
      st.alerts.filter (fun a => decide (a.key = k)) ∧
    (k ∈ (ss.foldl (fun st s => stationStep f s st) st).toRemove ↔
      k ∈ st.toRemove) ∧
    (ss.foldl (fun st s => stationStep f s st) st).subs.map Prod.fst =
      st.subs.map Prod.fst
  | [], st, v, _, _, hget => ⟨hget, rfl, Iff.rfl, rfl⟩
  | s :: ss, st, v, hno, hnd, hget => by
    have hs : v.origin ≠ s := fun h => hno (h ▸ List.mem_cons_self s ss)
    have hss : v.origin ∉ ss := fun h => hno (List.mem_cons_of_mem s h)
    obtain ⟨g1, g2, g3, g4⟩ := stationStep_key_spec f s st k v hnd hget
    obtain ⟨u1, u2, u3⟩ := entry_off_station f s (k, v) hs
    rw [u1] at g1
    dsimp only at g1
    rw [u2, List.append_nil] at g2
    rw [u3] at g3
    have g3' : k ∈ (stationStep f s st).toRemove ↔ k ∈ st.toRemove := by
      rw [g3]
      simp
    have hnd2 : ((stationStep f s st).subs.map Prod.fst).Nodup := by
      rw [g4]
      exact hnd
    rw [List.foldl_cons]
    obtain ⟨r1, r2, r3, r4⟩ :=
      stationsFold_no_origin f k ss (stationStep f s st) v hss hnd2 g1
    exact ⟨r1, by rw [r2, g2], by rw [r3, g3'], by rw [r4, g4]⟩

/-- The per-watch outcome of the whole alert pass. -/
theorem tickCore_key_spec (f : String → List Train) (subs0 : SubsMap)
    (k : String) (v : Sub)
    (hnd : (subs0.map Prod.fst).Nodup) (hmem : (k, v) ∈ subs0) :
    dictGet (tickCore f subs0).subs k = some (entryFinal f k v) ∧
    (tickCore f subs0).alerts.filter (fun a => decide (a.key = k)) =
      entryAlertsAt f v.origin (k, v) ∧
    (k ∈ (tickCore f subs0).toRemove ↔
      k ∈ entryRemovesAt f v.origin (k, v)) ∧
    (tickCore f subs0).subs.map Prod.fst = subs0.map Prod.fst := by
  have hget0 : dictGet subs0 k = some v := dictGet_of_mem_nodup subs0 k v hnd hmem
  have hov : v.origin ∈ stationsOf subs0 := by
    rw [stationsOf, List.mem_dedup]
    exact List.mem_map_of_mem (fun p => p.2.origin) hmem
  obtain ⟨ss1, ss2, hsplit⟩ := List.append_of_mem hov
  have hndss : (stationsOf subs0).Nodup := List.nodup_dedup _
  rw [hsplit] at hndss
  obtain ⟨hnds1, hnds2, hdisj⟩ := List.nodup_append.mp hndss
  have ho1 : v.origin ∉ ss1 := fun h => hdisj h (List.mem_cons_self _ _)
  have ho2 : v.origin ∉ ss2 := (List.nodup_cons.mp hnds2).1
  have htc : tickCore f subs0 =
      ss2.foldl (fun st s => stationStep f s st)
        (stationStep f v.origin
          (ss1.foldl (fun st s => stationStep f s st) ⟨subs0, [], []⟩)) := by
    rw [tickCore, hsplit, List.foldl_append, List.foldl_cons]
  obtain ⟨p1, p2, p3, p4⟩ :=
    stationsFold_no_origin f k ss1 ⟨subs0, [], []⟩ v ho1 hnd hget0
  obtain ⟨q1, q2, q3, q4⟩ := stationStep_key_spec f v.origin
    (ss1.foldl (fun st s => stationStep f s st) ⟨subs0, [], []⟩) k v
    (by rw [p4]; exact hnd) p1
  have q1' : dictGet (stationStep f v.origin
      (ss1.foldl (fun st s => stationStep f s st) ⟨subs0, [], []⟩)).subs k =
      some (entryFinal f k v) := by
    rw [q1, entryFinal]
    rcases entryUpd f v.origin (k, v) with _ | w <;> rfl
  have hnd3 : ((stationStep f v.origin
      (ss1.foldl (fun st s => stationStep f s st) ⟨subs0, [], []⟩)).subs.map
        Prod.fst).Nodup := by
    rw [q4, p4]
    exact hnd
  obtain ⟨r1, r2, r3, r4⟩ := stationsFold_no_origin f k ss2
    (stationStep f v.origin
      (ss1.foldl (fun st s => stationStep f s st) ⟨subs0, [], []⟩))
    (entryFinal f k v) (by rw [entryFinal_origin]; exact ho2) hnd3 q1'
  refine ⟨?_, ?_, ?_, ?_⟩
  · rw [htc]
    exact r1
  · rw [htc, r2, q2, p2]
    simp
  · rw [htc, r3, q3, p3]
    simp
  · rw [htc, r4, q4, p4]

/-- The per-watch outcome of one complete tick, removal included. -/
theorem monitor_tick_key_spec (f : String → List Train) (subs0 : SubsMap)
    (k : String) (v : Sub)
    (hnd : (subs0.map Prod.fst).Nodup) (hmem : (k, v) ∈ subs0) :
    dictGet (monitor_tick f subs0).subs k =
      (if k ∈ entryRemovesAt f v.origin (k, v) then none
       else some (entryFinal f k v)) ∧
    (monitor_tick f subs0).alerts.filter (fun a => decide (a.key = k)) =
      entryAlertsAt f v.origin (k, v) := by
  obtain ⟨t1, t2, t3, t4⟩ := tickCore_key_spec f subs0 k v hnd hmem
  constructor
  · have hsubs : (monitor_tick f subs0).subs =
        (tickCore f subs0).subs.filter
          (fun p => decide (p.1 ∉ (tickCore f subs0).toRemove)) := rfl
    rw [hsubs, dictGet_filter_rem]
    by_cases hr : k ∈ entryRemovesAt f v.origin (k, v)
    · rw [if_pos (t3.mpr hr), if_pos hr]
    · rw [if_neg (fun h => hr (t3.mp h)), if_neg hr, t1]
  · exact t2

/-! ### The tick under a mid-pass exception (C3)

`fetch_trains` never raises (it catches internally and returns `[]`),
but `alert_callback` can: the `except` at src/train_bot.py lines
111-112 then ends the tick before the removal loop at line 110 runs.
The fueled runner below executes the same `stepEntry` operations and
stops after `fuel` of them, returning `false` when it was cut short; a
cut-short run skips the removal pass, exactly as the exception path
does. -/

def runEntriesF (f : String → List Train) (s : String) :
    List (String × Sub) → TickState → Nat → TickState × Nat × Bool
  | [], st, fuel => (st, fuel, true)
  | _ :: _, st, 0 => (st, 0, false)
  | e :: es, st, Nat.succ n => runEntriesF f s es (stepEntry f s st e) n

def runStationsF (f : String → List Train) :
    List String → TickState → Nat → TickState × Bool
  | [], st, _ => (st, true)
  | s :: ss, st, fuel =>
    match runEntriesF f s st.subs st fuel with
    | (st1, fuel1, true) => runStationsF f ss st1 fuel1
    | (st1, _, false) => (st1, false)

/-- One tick whose alert pass raises after `fuel` entry-steps: the
removal pass runs only when the pass completed. -/
def monitor_tick_aborted (f : String → List Train) (subs0 : SubsMap)
    (fuel : Nat) : TickState × Bool :=
  match runStationsF f (stationsOf subs0) ⟨subs0, [], []⟩ fuel with
  | (st, true) =>
    ({ st with subs := st.subs.filter (fun p => decide (p.1 ∉ st.toRemove)) },
     true)
  | (st, false) => (st, false)

theorem keys_stepEntry (f : String → List Train) (s : String)
    (acc : TickState) (e : String × Sub)
    (h : e.1 ∈ acc.subs.map Prod.fst) :
    (stepEntry f s acc e).subs.map Prod.fst = acc.subs.map Prod.fst := by
  obtain ⟨h1, _, _⟩ := stepEntry_spec f s acc e
  rw [h1]
  rcases hupd : entryUpd f s e with _ | v
  · dsimp only
  · dsimp only
    have hany : acc.subs.any (fun p => p.1 = e.1) = true := by
      obtain ⟨p, hp, hpe⟩ := List.mem_map.mp h
      exact List.any_eq_true.mpr ⟨p, hp, by simp [hpe]⟩
    exact keys_dictSet_of_any acc.subs e.1 v hany

theorem keys_runEntriesF (f : String → List Train) (s : String) :
    ∀ (es : List (String × Sub)) (st : TickState) (fuel : Nat),
    (∀ e ∈ es, e.1 ∈ st.subs.map Prod.fst) →
    (runEntriesF f s es st fuel).1.subs.map Prod.fst = st.subs.map Prod.fst
  | [], _, _, _ => rfl
  | _ :: _, _, 0, _ => rfl
  | e :: es, st, Nat.succ n, h => by
    simp only [runEntriesF]
    have hk := keys_stepEntry f s st e (h e (List.mem_cons_self e es))
    rw [keys_runEntriesF f s es (stepEntry f s st e) n
      (fun e2 he2 => by rw [hk]; exact h e2 (List.mem_cons_of_mem e he2)), hk]

theorem keys_runStationsF (f : String → List Train) :
    ∀ (ss : List String) (st : TickState) (fuel : Nat),
    (runStationsF f ss st fuel).1.subs.map Prod.fst = st.subs.map Prod.fst
  | [], _, _ => rfl
  | s :: ss, st, fuel => by
    simp only [runStationsF]
    have hk := keys_runEntriesF f s st.subs st fuel
      (fun e he => List.mem_map_of_mem Prod.fst he)
    rcases hre : runEntriesF f s st.subs st fuel with ⟨st1, fuel1, ok⟩
    rw [hre] at hk
    dsimp only at hk
    rcases ok with _ | _
    · dsimp only
      exact hk
    · dsimp only
      rw [keys_runStationsF f ss st1 fuel1]
      exact hk

theorem monitor_tick_aborted_keys (f : String → List Train)
    (subs0 : SubsMap) (fuel : Nat)
    (h : (monitor_tick_aborted f subs0 fuel).2 = false) :
    (monitor_tick_aborted f subs0 fuel).1.subs.map Prod.fst =
      subs0.map Prod.fst := by
  have hk := keys_runStationsF f (stationsOf subs0) ⟨subs0, [], []⟩ fuel
  rcases hrs : runStationsF f (stationsOf subs0) ⟨subs0, [], []⟩ fuel
    with ⟨st, ok⟩
  rw [hrs] at hk
  dsimp only at hk
  rcases ok with _ | _
  · simp only [monitor_tick_aborted, hrs]
    exact hk
  · simp only [monitor_tick_aborted, hrs] at h
    exact absurd h (by simp)

/-- The `/watch [time]` branch of `TrainBot.handle_command`
(src/train_bot.py lines 150-169): fetch details once, extract the
current status/platform (or the "Unknown"/"TBC" defaults when the train
is not found), and store them immediately as the watch fingerprint.
`details` is the result of the `fetch_trains` call. -/
def train_watch (subs : SubsMap) (ctxCrs : String) (ctxFilter : Option String)
    (details : List Train) (timeTarget : String) : SubsMap × String :=
  let m := findMatch details timeTarget
  let status := match m with | some t => t.etd | none => "Unknown"
  let plat := match m with | some t => t.plat | none => "TBC"
  let eta := match m with | some t => t.eta | none => "N/A"
  let etaStr :=
    if eta ≠ "N/A" then
      match ctxFilter with
      | some d => " (ETA @ " ++ d ++ ": " ++ eta ++ ")"
      | none => " (Arrives: " ++ eta ++ ")"
    else ""
  (dictSet subs timeTarget
     { origin := ctxCrs, status := status, plat := plat, dest := ctxFilter },
   "🔔 Watching the **" ++ timeTarget ++ "** from **" ++ ctxCrs ++ "**" ++
     etaStr ++ ".")

/-- **C5, counterexample** — the claim says a duplicate watch replaces
the stored fingerprint with the "unknown" value; but when the fresh
fetch finds the record, the code stores the real current status and
platform: re-watching the 08:15 while it is "Delayed" on platform 5
stores ("Delayed", "5"), not an unknown fingerprint. -/
theorem c5_counterexample :
    (train_watch [("08:15", ⟨"NEM", "On time", "4", none⟩)] "NEM" none
        [⟨"08:15", "Delayed", "London Waterloo", "5", "N/A"⟩] "08:15").1 =
      [("08:15", ⟨"NEM", "Delayed", "5", none⟩)] ∧
    ("Delayed" : String) ≠ "Unknown" ∧ ("Delayed" : String) ≠ "unknown" :=
  ⟨by decide, by decide, by decide⟩

/-- **C5, amended** — a second watch command naming an existing key
overwrites that watch in place (the key list is unchanged, so no
duplicate entry); the stored fingerprint is taken from the fresh fetch:
the record's current status and platform when the fetch finds it, and
the ("Unknown", "TBC") placeholder only when it does not. -/
theorem c5_duplicate_watch_overwrites (subs : SubsMap) (ctxCrs : String)
    (ctxFilter : Option String) (details : List Train) (t : String)
    (hmem : t ∈ subs.map Prod.fst) :
    ((train_watch subs ctxCrs ctxFilter details t).1.map Prod.fst =
      subs.map Prod.fst) ∧
    (∀ tr : Train, findMatch details t = some tr →
      dictGet (train_watch subs ctxCrs ctxFilter details t).1 t =
        some ⟨ctxCrs, tr.etd, tr.plat, ctxFilter⟩) ∧
    (findMatch details t = none →
      dictGet (train_watch subs ctxCrs ctxFilter details t).1 t =
        some ⟨ctxCrs, "Unknown", "TBC", ctxFilter⟩) := by
  have hany : subs.any (fun p => p.1 = t) = true := by
    obtain ⟨p, hp, rfl⟩ := List.mem_map.mp hmem
    exact List.any_eq_true.mpr ⟨p, hp, by simp⟩
  refine ⟨?_, ?_, ?_⟩
  · simp only [train_watch]
    exact keys_dictSet_of_any subs t _ hany
  · intro tr htr
    simp only [train_watch, htr]
    exact dictGet_dictSet_self subs t _
  · intro htr
    simp only [train_watch, htr]
    exact dictGet_dictSet_self subs t _

/-- Witness for the amended C5: re-watching an existing key. -/
theorem c5_duplicate_watch_overwrites_witness :
    ("08:15" ∈ ([("08:15", ⟨"NEM", "On time", "4", none⟩)] : SubsMap).map
      Prod.fst) ∧
    ((train_watch [("08:15", ⟨"NEM", "On time", "4", none⟩)] "NEM" none
        [⟨"08:15", "Delayed", "London Waterloo", "5", "N/A"⟩] "08:15").1.map
          Prod.fst =
      ([("08:15", ⟨"NEM", "On time", "4", none⟩)] : SubsMap).map Prod.fst) ∧
    (∀ tr : Train,
      findMatch [⟨"08:15", "Delayed", "London Waterloo", "5", "N/A"⟩] "08:15" =
        some tr →
      dictGet (train_watch [("08:15", ⟨"NEM", "On time", "4", none⟩)] "NEM"
          none [⟨"08:15", "Delayed", "London Waterloo", "5", "N/A"⟩]
          "08:15").1 "08:15" =
        some ⟨"NEM", tr.etd, tr.plat, none⟩) ∧
    (findMatch [⟨"08:15", "Delayed", "London Waterloo", "5", "N/A"⟩] "08:15" =
        none →
      dictGet (train_watch [("08:15", ⟨"NEM", "On time", "4", none⟩)] "NEM"
          none [⟨"08:15", "Delayed", "London Waterloo", "5", "N/A"⟩]
          "08:15").1 "08:15" =
        some ⟨"NEM", "Unknown", "TBC", none⟩) :=
  ⟨by decide,
   c5_duplicate_watch_overwrites [("08:15", ⟨"NEM", "On time", "4", none⟩)]
     "NEM" none [⟨"08:15", "Delayed", "London Waterloo", "5", "N/A"⟩] "08:15"
     (by decide)⟩

/-- **C2** — for every watch `(k, v)` with stored fingerprint
`F0 = (v.status, v.plat)` and every tick whose fetch finds a record `m`
with the same scheduled-time identity (and a non-terminal status): if
the fetched fingerprint differs, exactly one alert for that watch is
emitted, carrying the new fields, and the stored fingerprint becomes
the fetched one; if it is equal, zero alerts are emitted and the stored
value is unchanged. -/
theorem c2_watch_fingerprint_diff (f : String → List Train)
    (subs0 : SubsMap) (k : String) (v : Sub) (m : Train)
    (hnd : (subs0.map Prod.fst).Nodup) (hmem : (k, v) ∈ subs0)
    (hfind : findMatch (f v.origin) k = some m)
    (hterm : hasDeparted m.etd = false) :
    ((m.etd ≠ v.status ∨ m.plat ≠ v.plat) →
      (monitor_tick f subs0).alerts.filter (fun a => decide (a.key = k)) =
        [⟨k, v.origin, m.etd, m.plat⟩] ∧
      dictGet (monitor_tick f subs0).subs k =
        some ⟨v.origin, m.etd, m.plat, v.dest⟩) ∧
    ((m.etd = v.status ∧ m.plat = v.plat) →
      (monitor_tick f subs0).alerts.filter (fun a => decide (a.key = k)) =
        [] ∧
      dictGet (monitor_tick f subs0).subs k = some v) := by
  obtain ⟨hget, halerts⟩ := monitor_tick_key_spec f subs0 k v hnd hmem
  have hrem : entryRemovesAt f v.origin (k, v) = [] := by
    rw [entryRemovesAt, if_pos rfl]
    dsimp only
    rw [hfind]
    dsimp only
    rw [if_neg (by simp [hterm])]
  have hupd_eq : entryUpd f v.origin (k, v) =
      (if m.etd ≠ v.status ∨ m.plat ≠ v.plat then
        some ⟨v.origin, m.etd, m.plat, v.dest⟩ else none) := by
    rw [entryUpd, if_pos rfl]
    dsimp only
    rw [hfind]
  have halerts_eq : entryAlertsAt f v.origin (k, v) =
      (if m.etd ≠ v.status ∨ m.plat ≠ v.plat then
        [⟨k, v.origin, m.etd, m.plat⟩] else []) := by
    rw [entryAlertsAt, if_pos rfl]
    dsimp only
    rw [hfind]
  have hnotmem : k ∉ entryRemovesAt f v.origin (k, v) := by
    rw [hrem]
    exact List.not_mem_nil k
  constructor
  · intro hch
    constructor
    · rw [halerts, halerts_eq, if_pos hch]
    · rw [hget, if_neg hnotmem, entryFinal, hupd_eq, if_pos hch]
  · intro heq
    have hch : ¬ (m.etd ≠ v.status ∨ m.plat ≠ v.plat) := by
      push_neg
      exact heq
    constructor
    · rw [halerts, halerts_eq, if_neg hch]
    · rw [hget, if_neg hnotmem, entryFinal, hupd_eq, if_neg hch]

/-- A sample subscriptions map with two watches on two stations. -/
def sampleSubs : SubsMap :=
  [("08:15", ⟨"NEM", "On time", "4", none⟩),
   ("09:00", ⟨"WAT", "On time", "1", none⟩)]

/-- A sample fetcher serving both stations. -/
def sampleFetchOk : String → List Train := fun s =>
  if s = "NEM" then [⟨"08:15", "On time", "London", "4", "N/A"⟩]
  else if s = "WAT" then [⟨"09:00", "Delayed", "London", "2", "N/A"⟩]
  else []

/-- `sampleFetchOk` with a fetch failure at NEM (an erroring
`fetch_trains` returns `[]`). -/
def sampleFetchFail : String → List Train := fun s =>
  if s = "NEM" then [] else sampleFetchOk s

/-- Witness for C2: the 09:00 from WAT turns "Delayed". -/
theorem c2_watch_fingerprint_diff_witness :
    ((("Delayed" : String) ≠ "On time" ∨ ("2" : String) ≠ "1") →
      (monitor_tick sampleFetchOk sampleSubs).alerts.filter
        (fun a => decide (a.key = "09:00")) =
        [⟨"09:00", "WAT", "Delayed", "2"⟩] ∧
      dictGet (monitor_tick sampleFetchOk sampleSubs).subs "09:00" =
        some ⟨"WAT", "Delayed", "2", none⟩) ∧
    ((("Delayed" : String) = "On time" ∧ ("2" : String) = "1") →
      (monitor_tick sampleFetchOk sampleSubs).alerts.filter
        (fun a => decide (a.key = "09:00")) = [] ∧
      dictGet (monitor_tick sampleFetchOk sampleSubs).subs "09:00" =
        some ⟨"WAT", "On time", "1", none⟩) :=
  c2_watch_fingerprint_diff sampleFetchOk sampleSubs "09:00"
    ⟨"WAT", "On time", "1", none⟩ ⟨"09:00", "Delayed", "London", "2", "N/A"⟩
    (by decide) (by decide) (by decide) (by decide)

/-- **C3** — a fetch failure for one partition does not disturb the
processing of watches on other partitions: two fetchers that agree
outside the failing station produce the same stored value and the same
alerts for every watch of another station.  And a tick that dies partway
through its alert pass (the `except` path skips the removal loop)
removes no watch: the key set afterwards equals the key set before, for
every abort point. -/
theorem c3_partition_isolation_and_fail_safe (f g : String → List Train)
    (s0 : String) (subs0 : SubsMap) (k : String) (v : Sub)
    (hnd : (subs0.map Prod.fst).Nodup) (hmem : (k, v) ∈ subs0)
    (hfg : ∀ s, s ≠ s0 → f s = g s) (hko : v.origin ≠ s0) :
    (dictGet (monitor_tick f subs0).subs k =
      dictGet (monitor_tick g subs0).subs k ∧
     (monitor_tick f subs0).alerts.filter (fun a => decide (a.key = k)) =
       (monitor_tick g subs0).alerts.filter (fun a => decide (a.key = k))) ∧
    (∀ fuel : Nat, (monitor_tick_aborted f subs0 fuel).2 = false →
      (monitor_tick_aborted f subs0 fuel).1.subs.map Prod.fst =
        subs0.map Prod.fst) := by
  have hfo : f v.origin = g v.origin := hfg v.origin hko
  obtain ⟨hf1, hf2⟩ := monitor_tick_key_spec f subs0 k v hnd hmem
  obtain ⟨hg1, hg2⟩ := monitor_tick_key_spec g subs0 k v hnd hmem
  have he1 : entryRemovesAt f v.origin (k, v) =
      entryRemovesAt g v.origin (k, v) := by
    rw [entryRemovesAt, entryRemovesAt, hfo]
  have he2 : entryFinal f k v = entryFinal g k v := by
    rw [entryFinal, entryFinal, entryUpd, entryUpd, hfo]
  have he3 : entryAlertsAt f v.origin (k, v) =
      entryAlertsAt g v.origin (k, v) := by
    rw [entryAlertsAt, entryAlertsAt, hfo]
  refine ⟨⟨?_, ?_⟩, ?_⟩
  · rw [hf1, hg1, he1, he2]
  · rw [hf2, hg2, he3]
  · intro fuel h
    exact monitor_tick_aborted_keys f subs0 fuel h

/-- Witness for C3: NEM fetch fails, the WAT watch is unaffected; a
tick aborted after one step removes nothing. -/
theorem c3_partition_isolation_and_fail_safe_witness :
    (dictGet (monitor_tick sampleFetchOk sampleSubs).subs "09:00" =
      dictGet (monitor_tick sampleFetchFail sampleSubs).subs "09:00" ∧
     (monitor_tick sampleFetchOk sampleSubs).alerts.filter
       (fun a => decide (a.key = "09:00")) =
       (monitor_tick sampleFetchFail sampleSubs).alerts.filter
         (fun a => decide (a.key = "09:00"))) ∧
    ((monitor_tick_aborted sampleFetchOk sampleSubs 1).2 = false →
      (monitor_tick_aborted sampleFetchOk sampleSubs 1).1.subs.map Prod.fst =
        sampleSubs.map Prod.fst) :=
  ⟨(c3_partition_isolation_and_fail_safe sampleFetchOk sampleFetchFail "NEM"
      sampleSubs "09:00" ⟨"WAT", "On time", "1", none⟩ (by decide) (by decide)
      (by
        intro s hs
        simp [sampleFetchOk, sampleFetchFail, hs]) (by decide)).1,
   fun h => (c3_partition_isolation_and_fail_safe sampleFetchOk
      sampleFetchFail "NEM" sampleSubs "09:00" ⟨"WAT", "On time", "1", none⟩
      (by decide) (by decide)
      (by
        intro s hs
        simp [sampleFetchOk, sampleFetchFail, hs]) (by decide)).2 1 h⟩

end SignalAutomation
